import Mathlib

/-!
Verification development for the email-sleuth engine.

Shallow embedding of the core scoring, merging, pattern-generation and SMTP
classification logic of the email-sleuth repository
(`src/patterns.rs`, `src/sleuth.rs`, `src/smtp.rs`, `src/config.rs`,
`src/models.rs`), together with theorems settling the specification claims.

Rust strings are modelled by Lean `String` (a list of Unicode scalar values);
byte-level operations (`str::len`, byte slicing) are modelled explicitly via
UTF-8 sizes.  `HashSet` iteration order, which Rust leaves unspecified, is
modelled by an explicit iteration-order parameter constrained to enumerate the
set.  Case mapping is modelled per-scalar (faithful on ASCII, which is all the
email regex admits).
-/

namespace EmailSleuth

/-! ## String primitives (models of the Rust `str`/`String` operations used) -/

/-- Model of Rust `str::is_prefix` check used below: `needle` is a prefix. -/
def prefixOf (needle hay : List Char) : Bool :=
  match needle, hay with
  | [], _ => true
  | _ :: _, [] => false
  | n :: ns, h :: hs => n == h && prefixOf ns hs

/-- Substring test `subOf needle hay`: `needle` occurs as a contiguous substring of `hay`.
Model of Rust `str::contains` (UTF-8 byte containment coincides with scalar
containment thanks to the prefix property of UTF-8). -/
def subOf (needle : List Char) : List Char → Bool
  | [] => needle.isEmpty
  | c :: t => prefixOf needle (c :: t) || subOf needle t

/-- Model of Rust `str::contains`. -/
def sContains (s sub : String) : Bool := subOf sub.data s.data

/-- Model of Rust `str::to_lowercase` (per-scalar; exact on ASCII). -/
def sToLower (s : String) : String := ⟨s.data.map Char.toLower⟩

/-- Model of Rust `char::is_whitespace` restricted to the ASCII whitespace
recognised by Lean's `Char.isWhitespace`. -/
def isWs (c : Char) : Bool := c.isWhitespace

/-- Model of Rust `str::trim` (strip whitespace from both ends). -/
def trimChars (cs : List Char) : List Char :=
  ((cs.dropWhile isWs).reverse.dropWhile isWs).reverse

/-- Model of Rust `str::split(sep)` for a single separator char: splits into
the (possibly empty) pieces between occurrences of `sep`. -/
def splitOnChar (sep : Char) : List Char → List (List Char)
  | [] => [[]]
  | c :: t =>
    if c == sep then [] :: splitOnChar sep t
    else
      match splitOnChar sep t with
      | [] => [[c]]
      | h :: r => (c :: h) :: r

/-- UTF-8 byte length of a string (model of Rust `str::len`). -/
def byteLen (s : String) : Nat := s.data.foldl (fun n c => n + c.utf8Size) 0

/-- Model of the Rust byte slice `&s[0..n]`: returns the scalars making up the
first `n` UTF-8 bytes, or `none` when `n` is not a character boundary
(in which case the Rust code panics). -/
def slicePrefixBytes (cs : List Char) (n : Nat) : Option (List Char) :=
  if n = 0 then some []
  else
    match cs with
    | [] => none
    | c :: t =>
      if c.utf8Size ≤ n then (slicePrefixBytes t (n - c.utf8Size)).map (c :: ·)
      else none

/-! ## The email regex

`config.rs` compiles `\b[A-Za-z0-9._%+-]+@[A-Za-z0-9.-]+\.[A-Z|a-z]{2,}\b` and
uses it only through `Regex::is_match`, i.e. "some substring of the input,
delimited by word boundaries, matches the core pattern".  The model below
expresses exactly that existential search (word characters per the ASCII part
of `\w`). -/

def isWordChar (c : Char) : Bool := c.isAlphanum || c == '_'

/-- The regex word boundary `\b` at scalar position `i` of `cs`. -/
def boundaryAt (cs : List Char) (i : Nat) : Bool :=
  let before :=
    match i with
    | 0 => false
    | k + 1 => match cs.get? k with
      | some c => isWordChar c
      | none => false
  let after :=
    match cs.get? i with
    | some c => isWordChar c
    | none => false
  before != after

def isLocalChar (c : Char) : Bool :=
  c.isAlphanum || c == '.' || c == '_' || c == '%' || c == '+' || c == '-'

def isDomChar (c : Char) : Bool := c.isAlphanum || c == '.' || c == '-'

/-- Does the scalar list `m` match the core pattern
`[A-Za-z0-9._%+-]+@[A-Za-z0-9.-]+\.[A-Za-z]{2,}` exactly (anchored at both
ends of `m`)? -/
def coreMatch (m : List Char) : Bool :=
  (List.range m.length).any fun a =>
    m.get? a == some '@' && decide (1 ≤ a) && (m.take a).all isLocalChar &&
      (let rest := m.drop (a + 1)
       (List.range rest.length).any fun b =>
         rest.get? b == some '.' && decide (1 ≤ b) && (rest.take b).all isDomChar &&
           (let t := rest.drop (b + 1)
            decide (2 ≤ t.length) && t.all Char.isAlpha))

/-- Model of `CONFIG.email_regex.is_match s`. -/
def emailRegexIsMatch (s : String) : Bool :=
  let cs := s.data
  let n := cs.length
  (List.range (n + 1)).any fun i =>
    boundaryAt cs i &&
      ((List.range (n + 1)).any fun jr =>
        let j := n - jr
        decide (i < j) && boundaryAt cs j && coreMatch ((cs.drop i).take (j - i)))

/-! ## Pattern generation (`src/patterns.rs`)

`generate_email_patterns` inserts candidate strings into a `HashSet` and then
iterates the set.  Rust's `HashSet` iteration order is unspecified and varies
between set instances, so the embedding takes the iteration order as a
parameter `iter`, constrained (in the theorems) to enumerate the distinct
inserted elements; `dedupKeepFirst` is the canonical such enumeration.
The byte slice `&first[0..3]` can panic on a non-boundary index, hence the
`Option` result (`none` models a panic). -/

/-- First-occurrence deduplication: the distinct elements of `xs` in order of
first appearance. -/
def dedupGo (acc : List String) : List String → List String
  | [] => acc
  | x :: t => if acc.contains x then dedupGo acc t else dedupGo (acc ++ [x]) t

def dedupKeepFirst (xs : List String) : List String := dedupGo [] xs

/-- Model of `sanitize_name_part`: trim, remove all interior whitespace, lowercase. -/
def sanitize_name_part (part : String) : String :=
  sToLower ⟨(trimChars part.data).filter (fun c => !isWs c)⟩

/-- The insertion sequence of the pattern `HashSet` (13 unconditional
templates plus the two byte-sliced ones), or `none` if a byte slice panics. -/
def patternInsertions (first last domain : String)
    (first_initial last_initial : Char) : Option (List String) :=
  let base : List String := [
    first ++ "@" ++ domain,
    first ++ "." ++ last ++ "@" ++ domain,
    first ++ last,
    last ++ "." ++ first ++ "@" ++ domain,
    last ++ first,
    String.mk [first_initial] ++ last,
    String.mk [first_initial] ++ "." ++ last ++ "@" ++ domain,
    first ++ String.mk [last_initial],
    first ++ "." ++ String.mk [last_initial] ++ "@" ++ domain,
    first ++ "_" ++ last ++ "@" ++ domain,
    first ++ "-" ++ last ++ "@" ++ domain,
    last ++ "_" ++ first ++ "@" ++ domain,
    last ++ "-" ++ first ++ "@" ++ domain]
  match (if 3 ≤ byteLen first then
           (slicePrefixBytes first.data 3).map fun p => base ++ [String.mk p ++ last]
         else some base) with
  | none => none
  | some ins1 =>
    match (if 3 ≤ byteLen last then
             (slicePrefixBytes last.data 3).map fun p => ins1 ++ [first ++ String.mk p]
           else some ins1) with
    | none => none
    | some ins2 => some ins2

/-- The emit stage: iterate the set, append `@domain` to bare local parts,
and keep only regex-valid addresses. -/
def emitPatterns (iter : List String → List String) (domain : String)
    (ins : List String) : List String :=
  ((iter ins).map fun p =>
    if p.data.contains '@' then p else p ++ "@" ++ domain).filter emailRegexIsMatch

/-- Model of `generate_email_patterns`, parameterised by the `HashSet` iteration order
`iter`.  Returns `none` when the Rust code panics (byte slice off a character
boundary). -/
def generate_email_patterns_iter (iter : List String → List String)
    (first_name last_name domain : String) : Option (List String) :=
  if first_name == "" || last_name == "" || domain == "" || !(domain.data.contains '.') then
    some []
  else
    let first := sanitize_name_part first_name
    let last := sanitize_name_part last_name
    if first == "" || last == "" then some []
    else
      let first_initial := first.data.headD (Char.ofNat 0)
      let last_initial := last.data.headD (Char.ofNat 0)
      match patternInsertions first last domain first_initial last_initial with
      | none => none
      | some ins => some (emitPatterns iter domain ins)

/-- A valid `HashSet` iteration order: enumerates exactly the distinct
inserted elements, in some order. -/
def IterOk (iter : List String → List String) : Prop :=
  ∀ l, (iter l).Perm (dedupKeepFirst l)

/-- Model of `generate_email_patterns` with one concrete admissible iteration order. -/
def generate_email_patterns (first_name last_name domain : String) :
    Option (List String) :=
  generate_email_patterns_iter dedupKeepFirst first_name last_name domain

/-! ## SMTP verification outcomes (`src/models.rs`, `src/smtp.rs`) -/

/-- Structure `SmtpVerificationResult` from `models.rs`. -/
structure SmtpVerificationResult where
  exists? : Option Bool
  message : String
  should_retry : Bool
  is_catch_all : Bool
deriving DecidableEq, Repr

def SmtpVerificationResult.conclusive (exists? : Bool) (message : String)
    (is_catch_all : Bool) : SmtpVerificationResult :=
  ⟨some exists?, message, false, is_catch_all⟩

def SmtpVerificationResult.inconclusive_retry (message : String) :
    SmtpVerificationResult :=
  ⟨none, message, true, false⟩

def SmtpVerificationResult.inconclusive_no_retry (message : String) :
    SmtpVerificationResult :=
  ⟨none, message, false, false⟩

/-- The `lettre` crate's SMTP reply severity (first digit of the reply code). -/
inductive Severity where
  | positiveCompletion
  | positiveIntermediate
  | transientNegativeCompletion
  | permanentNegativeCompletion
deriving DecidableEq, Repr

/-- Outcome of the random-recipient `RCPT TO` issued for catch-all detection:
accepted with a positive completion, rejected with any other reply, or any
error along the way (command failure or unparsable random address). -/
inductive CatchAllProbe where
  | accepted
  | rejected
  | failed
deriving DecidableEq, Repr

/-- Flag `is_catch_all` after the catch-all step of `verify_smtp_email`
(lines 167–199 of `smtp.rs`): set only on a positive completion for the
random recipient; every error is swallowed, leaving `false`. -/
def catchAllFlag : CatchAllProbe → Bool
  | .accepted => true
  | .rejected => false
  | .failed => false

def rejection_phrases : List String :=
  ["unknown", "no such", "unavailable", "rejected", "doesn't exist", "disabled",
   "invalid address", "recipient not found", "user unknown", "mailbox unavailable"]

/-- Interpretation of the target `RCPT TO` response (`smtp.rs` lines 201–265).
`code` is the numeric reply code, `sev` its severity class, `target_message`
the reply text, `is_catch_all` the flag computed by the catch-all step. -/
def interpretTargetResponse (code : Nat) (sev : Severity) (target_message : String)
    (is_catch_all : Bool) : SmtpVerificationResult :=
  match sev with
  | .positiveCompletion =>
    if is_catch_all then
      .inconclusive_retry
        ("SMTP accepted (Possible Catch-All): " ++ toString code ++ " " ++ target_message)
    else
      .conclusive true
        ("SMTP Verification OK: " ++ toString code ++ " " ++ target_message) false
  | .positiveIntermediate =>
    .inconclusive_retry
      ("SMTP Unexpected Intermediate Code: " ++ toString code ++ " " ++ target_message)
  | .transientNegativeCompletion =>
    .inconclusive_retry
      ("SMTP Temp Failure/Greylisted? (4xx): " ++ toString code ++ " " ++ target_message)
  | .permanentNegativeCompletion =>
    let message_lower := sToLower target_message
    if [550, 551, 553].contains code
        || rejection_phrases.any (fun p => sContains message_lower p) then
      .conclusive false
        ("SMTP Rejected (User Likely Unknown): " ++ toString code ++ " " ++ target_message)
        false
    else
      .conclusive false
        ("SMTP Rejected (Policy/Other 5xx): " ++ toString code ++ " " ++ target_message)
        false

/-- Model of `handle_smtp_error` (`smtp.rs` lines 279–342): classify a transport error
by substring heuristics on its rendered text. -/
def handle_smtp_error (err_string server : String) : SmtpVerificationResult :=
  if sContains err_string "550"
      && (sContains err_string "does not exist"
        || sContains err_string "no such user"
        || sContains err_string "user unknown"
        || sContains err_string "recipient not found"
        || sContains err_string "NoSuchUser") then
    .conclusive false ("SMTP Rejected (User Does Not Exist): " ++ err_string) false
  else if sContains err_string "4"
      && (sContains err_string "temporary" || sContains err_string "transient") then
    .inconclusive_retry ("SMTP Transient Error: " ++ err_string)
  else if sContains err_string "5" && sContains err_string "permanent" then
    .inconclusive_no_retry ("SMTP Permanent Error: " ++ err_string)
  else if sContains err_string "connection refused" then
    .inconclusive_no_retry ("Connection refused by " ++ server)
  else if sContains err_string "connection reset" then
    .inconclusive_retry ("Connection reset by " ++ server)
  else if sContains err_string "timed out" then
    .inconclusive_retry "SMTP connection/operation timed out"
  else if sContains err_string "TLS" || sContains err_string "tls" then
    .inconclusive_retry ("SMTP TLS Error: " ++ err_string)
  else
    .inconclusive_retry ("Unhandled SMTP Error: " ++ err_string)

/-- Result returned for an error at the initial `SmtpConnection::connect`
(`smtp.rs` lines 75–90): the "port 25 blocked" heuristic fires before the
generic classifier. -/
def connectErrorResult (err_string server : String) : SmtpVerificationResult :=
  if sContains err_string "timed out" || sContains err_string "connection refused" then
    .inconclusive_no_retry
      "Port 25 is likely blocked by your ISP. Try using a different network or VPN."
  else handle_smtp_error err_string server

/-! ## The engine (`src/sleuth.rs`)

`EmailSleuth::find_email` is embedded as a pure function of: the contact's
names and domain, the generated pattern list, the filtered scraped list, the
mail-server resolution outcome (`Except` for success/failure), and an oracle
`verify` standing for `verify_email_smtp_with_retries` (status and message).
Wall-clock measurements (the `(Took …s)` decoration of logged SMTP messages
and the inter-candidate sleeps) are not representable and are elided; no claim
inspects them. -/

/-- The configuration fields `find_email` reads (`config.rs`). -/
structure SleuthConfig where
  genericEmailPrefixes : List String
  confidenceThreshold : Nat
  genericConfidenceThreshold : Nat
deriving DecidableEq, Repr

/-- Structure `FoundEmailData` from `models.rs` (confidence is the clamped 0–10 value). -/
structure FoundEmailData where
  email : String
  confidence : Nat
  source : String
  is_generic : Bool
  verification_status : Option Bool
  verification_message : String
deriving DecidableEq, Repr

/-- Structure `EmailResult` from `models.rs`; the verification log is an association
list with unique keys, modelling the `HashMap`. -/
structure EmailResult where
  found_emails : List FoundEmailData
  most_likely_email : Option String
  confidence_score : Nat
  methods_used : List String
  verification_log : List (String × String)
deriving DecidableEq, Repr

/-- Model of the generic-local-part check of `sleuth.rs`: the part before the first `@`,
lowercased, is in the configured generic prefix set. -/
def isGenericLocalPart (cfg : SleuthConfig) (email : String) : Bool :=
  match splitOnChar '@' email.data with
  | localPart :: _ => cfg.genericEmailPrefixes.contains (sToLower ⟨localPart⟩)
  | [] => false

/-- Model of the `add_candidate` closure (`sleuth.rs` lines 99–103): push the lowercased
email unless it is empty or already seen.  The `seen` set always holds exactly
the elements of the accumulated list, so the state is the list alone. -/
def addCandidate (acc : List String) (email : String) : List String :=
  if email == "" then acc
  else if acc.contains (sToLower email) then acc
  else acc ++ [sToLower email]

/-- The four-bucket candidate merge (`sleuth.rs` lines 93–124). -/
def mergeCandidates (generatedPatterns scrapedEmails : List String)
    (firstLower lastLower : String) : List String :=
  let nameHit := fun s => sContains s firstLower || sContains s lastLower
  let l1 := generatedPatterns.foldl
    (fun acc p => if nameHit p then addCandidate acc p else acc) []
  let l2 := scrapedEmails.foldl
    (fun acc s => if nameHit s then addCandidate acc s else acc) l1
  let l3 := scrapedEmails.foldl
    (fun acc s => if !(nameHit s) then addCandidate acc s else acc) l2
  generatedPatterns.foldl
    (fun acc p => if !(nameHit p) then addCandidate acc p else acc) l3

/-- Base confidence (`sleuth.rs` lines 184–198), accumulated in source order.
Confidence is `i16` in the source; values stay far from the `i16` range, so
`Int` is a faithful model. -/
def scoreBase (is_pattern is_scraped name_in_email matches_primary_domain : Bool) : Int :=
  ((((0 + (if is_pattern && name_in_email then 3 else 0))
    + (if is_scraped && name_in_email then 5 else 0))
    + (if is_scraped && !name_in_email then 2 else 0))
    + (if is_pattern && !name_in_email then 1 else 0))
    + (if matches_primary_domain then 1 else 0)

/-- Generic-prefix penalty (`sleuth.rs` lines 205–219). -/
def applyGenericPenalty (is_generic name_in_email : Bool) (confidence : Int) : Int :=
  if is_generic && name_in_email && confidence > 1 then max 1 (confidence - 5)
  else if is_generic && !name_in_email && confidence > 2 then max 1 (confidence - 2)
  else confidence

/-- Pre-SMTP confidence of a candidate with the given feature booleans. -/
def preSmtpConfidence (is_pattern is_scraped name_in_email is_generic
    matches_primary_domain : Bool) : Int :=
  applyGenericPenalty is_generic name_in_email
    (scoreBase is_pattern is_scraped name_in_email matches_primary_domain)

/-- Per-invocation mutable state of the candidate loop: the retained data,
the verification log and the methods list. -/
structure EngineState where
  foundEmails : List FoundEmailData
  log : List (String × String)
  methodsUsed : List String
deriving DecidableEq, Repr

/-- Model of `HashMap::insert`: overwrite the value at an existing key, else append. -/
def logInsert (l : List (String × String)) (k v : String) :
    List (String × String) :=
  if l.any (fun kv => kv.1 == k) then
    l.map (fun kv => if kv.1 == k then (k, v) else kv)
  else l ++ [(k, v)]

/-- Tail of one loop iteration (`sleuth.rs` lines 286–316): clamp the
confidence to 0–10 and retain the candidate iff the clamped value is
positive. -/
def finishCandidate (st : EngineState) (email : String) (is_scraped is_generic : Bool)
    (verification_status : Option Bool) (verification_message : String)
    (confidence' : Int) (methods' : List String) (log' : List (String × String)) :
    EngineState :=
  let final_confidence := (max 0 (min 10 confidence')).toNat
  let found' :=
    if final_confidence > 0 then
      st.foundEmails ++ [{
        email := email
        confidence := final_confidence
        source := if is_scraped then "scraped" else "pattern"
        is_generic := is_generic
        verification_status := verification_status
        verification_message := verification_message }]
    else st.foundEmails
  ⟨found', log', methods'⟩

/-- One iteration of the candidate loop (`sleuth.rs` lines 153–316), minus the
sleeps.  `verify` is the oracle for `verify_email_smtp_with_retries`. -/
def assessCandidate (cfg : SleuthConfig) (domain firstLower lastLower : String)
    (generatedPatterns scrapedEmails : List String) (mailServer : Option String)
    (verify : String → Option Bool × String) (st : EngineState) (email : String) :
    EngineState :=
  if !(emailRegexIsMatch email) then st
  else
    let emailParts := splitOnChar '@' email.data
    let email_local_part := sToLower ⟨(emailParts.get? 0).getD []⟩
    let email_domain_part := sToLower ⟨(emailParts.get? 1).getD []⟩
    let is_scraped := scrapedEmails.contains email
    let is_pattern := generatedPatterns.contains email
    let is_generic := isGenericLocalPart cfg email
    let matches_primary_domain := email_domain_part == domain
    if !matches_primary_domain && !(is_scraped && is_generic) then st
    else
      let name_in_email := sContains email_local_part firstLower
        || sContains email_local_part lastLower
      let confidence := preSmtpConfidence is_pattern is_scraped name_in_email
        is_generic matches_primary_domain
      let should_verify_smtp := mailServer.isSome
        && (decide (confidence ≥ 3) || (is_scraped && name_in_email && decide (confidence > 1)))
      if should_verify_smtp then
        let methods' := if st.methodsUsed.contains "smtp_verification" then
            st.methodsUsed
          else st.methodsUsed ++ ["smtp_verification"]
        let result := verify email
        let status := result.1
        let message := result.2
        let confidence' :=
          match status with
          | some true => confidence + 5
          | some false => 0
          | none => confidence + 1
        finishCandidate st email is_scraped is_generic status message confidence'
          methods' (logInsert st.log email message)
      else
        let message := if mailServer.isNone then
            "Verification skipped (DNS lookup failed)"
          else "Verification skipped (low initial confidence)"
        finishCandidate st email is_scraped is_generic none message confidence
          st.methodsUsed (logInsert st.log email message)

/-- The sort comparator of `sleuth.rs` lines 321–326, built from the `Ord`
comparators of the field types (`u8`, `bool`, `String`; string comparison is
UTF-8 byte order, which equals scalar lexicographic order). -/
def natCmp (m n : Nat) : Ordering :=
  if m < n then .lt else if n < m then .gt else .eq

def boolCmp (a b : Bool) : Ordering :=
  match a, b with
  | false, true => .lt
  | true, false => .gt
  | _, _ => .eq

def strCmp : List Char → List Char → Ordering
  | [], [] => .eq
  | [], _ :: _ => .lt
  | _ :: _, [] => .gt
  | a :: as, b :: bs => (natCmp a.toNat b.toNat).then (strCmp as bs)

def cmpFound (a b : FoundEmailData) : Ordering :=
  ((natCmp b.confidence a.confidence).then
    (boolCmp a.is_generic b.is_generic)).then
    (strCmp b.source.data a.source.data)

/-- Relation "`a` may precede `b`" for the stable sort. -/
def leFound (a b : FoundEmailData) : Bool := !(cmpFound a b == Ordering.gt)

/-- The sort order as a decidable relation. -/
def foundOrder (a b : FoundEmailData) : Prop := leFound a b = true

instance : DecidableRel foundOrder :=
  fun a b => inferInstanceAs (Decidable (leFound a b = true))

/-- Model of `verified_emails_data.sort_by(...)`: Rust's `sort_by` is a stable sort,
whose result is fully determined by the comparator, so any stable sorting
algorithm is a faithful model; `insertionSort` is the stable sort used here. -/
def sortFound (l : List FoundEmailData) : List FoundEmailData :=
  l.insertionSort foundOrder

/-- The selection rule (`sleuth.rs` lines 332–379) on the sorted list. -/
def selectMostLikely (found : List FoundEmailData) (ct gt : Nat) :
    Option FoundEmailData :=
  match found.find? (fun e => !e.is_generic && decide (ct ≤ e.confidence)) with
  | some e => some e
  | none =>
    match found with
    | [] => none
    | top :: _ =>
      if decide (ct ≤ top.confidence)
          && (!top.is_generic || decide (gt ≤ top.confidence)) then some top
      else none

/-- State after the candidate loop: initial methods and log (including the
DNS-failure entry when resolution failed), then one `assessCandidate` step per
merged candidate. -/
def engineAssess (cfg : SleuthConfig) (firstName lastName domain : String)
    (generatedPatterns scrapedEmails : List String) (dns : Except String String)
    (verify : String → Option Bool × String) : EngineState :=
  let firstLower := sToLower firstName
  let lastLower := sToLower lastName
  let methods0 := (if generatedPatterns.isEmpty then [] else ["pattern_generation"])
    ++ (if scrapedEmails.isEmpty then [] else ["website_scraping"])
  let log0 := match dns with
    | .ok _ => []
    | .error e => [(domain, "DNS resolution failed: " ++ e)]
  let mailServer := match dns with
    | .ok ms => some ms
    | .error _ => none
  let candidates := mergeCandidates generatedPatterns scrapedEmails firstLower lastLower
  candidates.foldl
    (assessCandidate cfg domain firstLower lastLower generatedPatterns scrapedEmails
      mailServer verify)
    ⟨[], log0, methods0⟩

/-- Model of `EmailSleuth::find_email`, end to end: assess, sort, select. -/
def findEmailCore (cfg : SleuthConfig) (firstName lastName domain : String)
    (generatedPatterns scrapedEmails : List String) (dns : Except String String)
    (verify : String → Option Bool × String) : EmailResult :=
  let st := engineAssess cfg firstName lastName domain generatedPatterns
    scrapedEmails dns verify
  let sorted := sortFound st.foundEmails
  let selected := selectMostLikely sorted cfg.confidenceThreshold
    cfg.genericConfidenceThreshold
  { found_emails := sorted
    most_likely_email := selected.map (·.email)
    confidence_score := (selected.map (·.confidence)).getD 0
    methods_used := st.methodsUsed
    verification_log := st.log }

/-- The admission condition of
the candidate loop: keep the candidate iff it matches the primary domain or is
a scraped generic. -/
def admitsCandidate (cfg : SleuthConfig) (domain : String)
    (scrapedEmails : List String) (email : String) : Bool :=
  let email_domain_part := sToLower ⟨((splitOnChar '@' email.data).get? 1).getD []⟩
  let is_scraped := scrapedEmails.contains email
  let is_generic := isGenericLocalPart cfg email
  (email_domain_part == domain) || (is_scraped && is_generic)

/-- Lookup in the verification log. -/
def logLookup (l : List (String × String)) (k : String) : Option String :=
  (l.find? (fun kv => kv.1 == k)).map (·.2)

/-- Number of entries of the log with the given key. -/
def countKey (l : List (String × String)) (k : String) : Nat :=
  (l.filter (fun kv => kv.1 == k)).length

/-- Lifts list permutation to the `Option` results of pattern generation:
both panic, or both return lists with the same elements. -/
def OptionPerm : Option (List String) → Option (List String) → Prop
  | none, none => True
  | some x, some y => x.Perm y
  | _, _ => False

/-- A concrete configuration with the default thresholds (4 and 7) and two
generic prefixes, used by the claim witnesses. -/
def witnessConfig : SleuthConfig := ⟨["info", "contact"], 4, 7⟩

/-! ## Spec-side definitions

These follow the wording of the specification claims (not the source) and are
compared against the source embeddings in the refinement theorems. -/

/-- Spec wording of the base confidence: a sum of five independent bonuses. -/
def claimBaseSum (is_pattern is_scraped name_in_email matches_primary_domain : Bool) :
    Int :=
  (if is_pattern && name_in_email then 3 else 0)
    + (if is_scraped && name_in_email then 5 else 0)
    + (if is_scraped && !name_in_email then 2 else 0)
    + (if is_pattern && !name_in_email then 1 else 0)
    + (if matches_primary_domain then 1 else 0)

/-- Spec wording of the generic penalty adjustment. -/
def claimGenericAdjust (is_generic name_in_email : Bool) (confidence : Int) : Int :=
  if is_generic && name_in_email && confidence > 1 then max 1 (confidence - 5)
  else if is_generic && !name_in_email && confidence > 2 then max 1 (confidence - 2)
  else confidence

/-- Spec wording of the pre-SMTP confidence: base sum, then generic penalty. -/
def claimPreSmtp (is_pattern is_scraped name_in_email is_generic
    matches_primary_domain : Bool) : Int :=
  claimGenericAdjust is_generic name_in_email
    (claimBaseSum is_pattern is_scraped name_in_email matches_primary_domain)

/-- Spec wording of the merged candidate list: the four filtered buckets
concatenated in priority order, every element lowercased, later duplicates of
an already-seen lowercased email skipped. -/
def specCandidateOrder (generatedPatterns scrapedEmails : List String)
    (firstLower lastLower : String) : List String :=
  let nameHit := fun s => sContains s firstLower || sContains s lastLower
  dedupKeepFirst
    (((generatedPatterns.filter nameHit)
        ++ (scrapedEmails.filter nameHit)
        ++ (scrapedEmails.filter (fun s => !(nameHit s)))
        ++ (generatedPatterns.filter (fun p => !(nameHit p)))).map sToLower)

/-! ## Comparator lawfulness

Facts needed to apply the `mergeSort` sortedness and stability lemmas to
`leFound`. -/

/-- A comparator that is swap-consistent, transitive on `lt`, and whose `eq`
kernel is a congruence for comparison. -/
def LawfulCmp {α : Type _} (cmp : α → α → Ordering) : Prop :=
  (∀ a b, cmp a b = (cmp b a).swap)
    ∧ (∀ a b c, cmp a b = .lt → cmp b c = .lt → cmp a c = .lt)
    ∧ (∀ a b c, cmp a b = .eq → cmp a c = cmp b c)

theorem lawful_natCmp : LawfulCmp natCmp := by
  refine ⟨?_, ?_, ?_⟩
  · intro a b
    unfold natCmp
    rcases Nat.lt_trichotomy a b with h | h | h
    · simp [h, Nat.lt_asymm h, Ordering.swap]
    · simp [h, Nat.lt_irrefl, Ordering.swap]
    · simp [h, Nat.lt_asymm h, Ordering.swap]
  · intro a b c hab hbc
    unfold natCmp at *
    split at hab
    · split at hbc
      · simp [natCmp, Nat.lt_trans ‹a < b› ‹b < c›]
      · split at hbc
        · exact absurd hbc (by simp)
        · exact absurd hbc (by simp)
    · split at hab
      · exact absurd hab (by simp)
      · exact absurd hab (by simp)
  · intro a b c hab
    unfold natCmp at *
    split at hab
    · exact absurd hab (by simp)
    · split at hab
      · exact absurd hab (by simp)
      · have : a = b := Nat.le_antisymm (Nat.not_lt.mp ‹¬ b < a›) (Nat.not_lt.mp ‹¬ a < b›)
        subst this
        rfl

theorem lawful_boolCmp : LawfulCmp boolCmp := by
  refine ⟨?_, ?_, ?_⟩
  · intro a b; cases a <;> cases b <;> rfl
  · intro a b c hab hbc
    cases a <;> cases b <;> cases c <;> simp_all [boolCmp]
  · intro a b c hab
    cases a <;> cases b <;> simp_all [boolCmp]

theorem then_swap (o₁ o₂ : Ordering) : (o₁.then o₂).swap = o₁.swap.then o₂.swap := by
  cases o₁ <;> rfl

theorem then_eq_lt {o₁ o₂ : Ordering} :
    o₁.then o₂ = .lt ↔ (o₁ = .lt ∨ (o₁ = .eq ∧ o₂ = .lt)) := by
  cases o₁ <;> simp [Ordering.then]

theorem then_eq_eq {o₁ o₂ : Ordering} :
    o₁.then o₂ = .eq ↔ (o₁ = .eq ∧ o₂ = .eq) := by
  cases o₁ <;> simp [Ordering.then]

theorem swap_eq_eq {o : Ordering} : o.swap = .eq ↔ o = .eq := by
  cases o <;> simp [Ordering.swap]

theorem swap_eq_gt {o : Ordering} : o.swap = .gt ↔ o = .lt := by
  cases o <;> simp [Ordering.swap]

/-- With swap-consistency, the `eq` kernel of a comparator is symmetric. -/
theorem cmp_eq_symm {α : Type _} {cmp : α → α → Ordering}
    (s : ∀ a b, cmp a b = (cmp b a).swap) {a b : α} (h : cmp a b = .eq) :
    cmp b a = .eq := by
  have hs := s a b
  rw [h] at hs
  exact swap_eq_eq.mp hs.symm

/-- With swap-consistency and first-argument `eq`-congruence, `eq` is also a
congruence in the second argument. -/
theorem cmp_eq_congr_right {α : Type _} {cmp : α → α → Ordering}
    (s : ∀ a b, cmp a b = (cmp b a).swap)
    (e : ∀ a b c, cmp a b = .eq → cmp a c = cmp b c)
    {a b : α} (h : cmp a b = .eq) (c : α) : cmp c a = cmp c b := by
  calc cmp c a = (cmp a c).swap := s c a
    _ = (cmp b c).swap := by rw [e a b c h]
    _ = cmp c b := (s c b).symm

theorem lawful_then {α : Type _} {cmp₁ cmp₂ : α → α → Ordering}
    (h₁ : LawfulCmp cmp₁) (h₂ : LawfulCmp cmp₂) :
    LawfulCmp (fun a b => (cmp₁ a b).then (cmp₂ a b)) := by
  obtain ⟨s₁, t₁, e₁⟩ := h₁
  obtain ⟨s₂, t₂, e₂⟩ := h₂
  refine ⟨?_, ?_, ?_⟩
  · intro a b
    show (cmp₁ a b).then (cmp₂ a b) = ((cmp₁ b a).then (cmp₂ b a)).swap
    rw [then_swap, ← s₁, ← s₂]
  · intro a b c hab hbc
    rcases then_eq_lt.mp hab with h | ⟨h, h'⟩ <;>
      rcases then_eq_lt.mp hbc with g | ⟨g, g'⟩
    · exact then_eq_lt.mpr (Or.inl (t₁ a b c h g))
    · have hac : cmp₁ a c = cmp₁ a b := (cmp_eq_congr_right s₁ e₁ g a).symm
      exact then_eq_lt.mpr (Or.inl (hac.trans h))
    · have hac : cmp₁ a c = cmp₁ b c := e₁ a b c h
      exact then_eq_lt.mpr (Or.inl (hac.trans g))
    · have hac : cmp₁ a c = cmp₁ b c := e₁ a b c h
      exact then_eq_lt.mpr (Or.inr ⟨hac.trans g, t₂ a b c h' g'⟩)
  · intro a b c hab
    obtain ⟨h, h'⟩ := then_eq_eq.mp hab
    show (cmp₁ a c).then (cmp₂ a c) = (cmp₁ b c).then (cmp₂ b c)
    rw [e₁ a b c h, e₂ a b c h']

theorem lawful_comap {α β : Type _} {cmp : β → β → Ordering} (f : α → β)
    (h : LawfulCmp cmp) : LawfulCmp (fun a b => cmp (f a) (f b)) := by
  obtain ⟨s, t, e⟩ := h
  exact ⟨fun a b => s (f a) (f b), fun a b c => t (f a) (f b) (f c),
    fun a b c => e (f a) (f b) (f c)⟩

theorem lawful_flip {α : Type _} {cmp : α → α → Ordering} (h : LawfulCmp cmp) :
    LawfulCmp (fun a b => cmp b a) := by
  obtain ⟨s, t, e⟩ := h
  refine ⟨fun a b => s b a, fun a b c hab hbc => t c b a hbc hab, ?_⟩
  intro a b c hab
  have hab' : cmp b a = .eq := hab
  show cmp c a = cmp c b
  exact cmp_eq_congr_right s e (cmp_eq_symm s hab') c

theorem lawful_strCmp : LawfulCmp strCmp := by
  obtain ⟨ns, nt, ne⟩ := lawful_natCmp
  refine ⟨?_, ?_, ?_⟩
  · intro a
    induction a with
    | nil => intro b; cases b <;> rfl
    | cons x xs ih =>
      intro b
      cases b with
      | nil => rfl
      | cons y ys =>
        show (natCmp x.toNat y.toNat).then (strCmp xs ys) = _
        rw [ih ys, ns x.toNat y.toNat, ← then_swap]
        rfl
  · intro a
    induction a with
    | nil =>
      intro b c hab hbc
      cases b with
      | nil => exact hbc
      | cons y ys =>
        cases c with
        | nil => exact absurd hbc (by simp [strCmp])
        | cons z zs => rfl
    | cons x xs ih =>
      intro b c hab hbc
      cases b with
      | nil => exact absurd hab (by simp [strCmp])
      | cons y ys =>
        cases c with
        | nil => exact absurd hbc (by simp [strCmp])
        | cons z zs =>
          show (natCmp x.toNat z.toNat).then (strCmp xs zs) = .lt
          rcases then_eq_lt.mp hab with h | ⟨h, h'⟩ <;>
            rcases then_eq_lt.mp hbc with g | ⟨g, g'⟩
          · exact then_eq_lt.mpr (Or.inl (nt _ _ _ h g))
          · have hzy : natCmp z.toNat y.toNat = .eq := by
              have := ns y.toNat z.toNat
              rw [g] at this
              exact swap_eq_eq.mp this.symm
            have : natCmp x.toNat z.toNat = natCmp x.toNat y.toNat := by
              calc natCmp x.toNat z.toNat = (natCmp z.toNat x.toNat).swap :=
                    ns x.toNat z.toNat
                _ = (natCmp y.toNat x.toNat).swap := by rw [ne z.toNat y.toNat x.toNat hzy]
                _ = natCmp x.toNat y.toNat := (ns x.toNat y.toNat).symm
            exact then_eq_lt.mpr (Or.inl (this.trans h))
          · have : natCmp x.toNat z.toNat = natCmp y.toNat z.toNat :=
              ne x.toNat y.toNat z.toNat h
            exact then_eq_lt.mpr (Or.inl (this.trans g))
          · have : natCmp x.toNat z.toNat = natCmp y.toNat z.toNat :=
              ne x.toNat y.toNat z.toNat h
            exact then_eq_lt.mpr (Or.inr ⟨this.trans g, ih ys zs h' g'⟩)
  · intro a
    induction a with
    | nil =>
      intro b c hab
      cases b with
      | nil => rfl
      | cons y ys => exact absurd hab (by simp [strCmp])
    | cons x xs ih =>
      intro b c hab
      cases b with
      | nil => exact absurd hab (by simp [strCmp])
      | cons y ys =>
        have hab' : (natCmp x.toNat y.toNat).then (strCmp xs ys) = .eq := hab
        obtain ⟨h, h'⟩ := then_eq_eq.mp hab'
        cases c with
        | nil => rfl
        | cons z zs =>
          show (natCmp x.toNat z.toNat).then (strCmp xs zs)
            = (natCmp y.toNat z.toNat).then (strCmp ys zs)
          rw [ne x.toNat y.toNat z.toNat h, ih ys zs h']

theorem lawful_cmpFound : LawfulCmp cmpFound := by
  have h₁ : LawfulCmp (fun a b : FoundEmailData => natCmp b.confidence a.confidence) :=
    lawful_flip (lawful_comap (·.confidence) lawful_natCmp)
  have h₂ : LawfulCmp (fun a b : FoundEmailData => boolCmp a.is_generic b.is_generic) :=
    lawful_comap (·.is_generic) lawful_boolCmp
  have h₃ : LawfulCmp (fun a b : FoundEmailData => strCmp b.source.data a.source.data) :=
    lawful_flip (lawful_comap (·.source.data) lawful_strCmp)
  exact lawful_then (lawful_then h₁ h₂) h₃

theorem leFound_eq_true_iff {a b : FoundEmailData} :
    leFound a b = true ↔ cmpFound a b ≠ .gt := by
  cases h : cmpFound a b <;> simp only [leFound, h] <;> decide

theorem not_gt_iff {o : Ordering} : o ≠ .gt ↔ (o = .lt ∨ o = .eq) := by
  cases o <;> simp

theorem leFound_trans : ∀ a b c : FoundEmailData,
    leFound a b → leFound b c → leFound a c := by
  obtain ⟨s, t, e⟩ := lawful_cmpFound
  intro a b c hab hbc
  rw [leFound_eq_true_iff] at *
  rw [not_gt_iff] at *
  rcases hab with h | h <;> rcases hbc with g | g
  · exact Or.inl (t a b c h g)
  · exact Or.inl ((cmp_eq_congr_right s e g a).symm.trans h)
  · exact Or.inl ((e a b c h).trans g)
  · exact Or.inr ((e a b c h).trans g)

theorem leFound_total : ∀ a b : FoundEmailData, leFound a b || leFound b a := by
  obtain ⟨s, _, _⟩ := lawful_cmpFound
  intro a b
  cases h : cmpFound a b with
  | lt => simp only [leFound, h]; rfl
  | eq => simp only [leFound, h]; rfl
  | gt =>
    have hba : cmpFound b a = .lt := by
      have hs := s a b
      rw [h] at hs
      exact swap_eq_gt.mp hs.symm
    simp only [leFound, h, hba]; rfl

instance : IsTrans FoundEmailData foundOrder :=
  ⟨fun a b c hab hbc => leFound_trans a b c hab hbc⟩

instance : IsTotal FoundEmailData foundOrder := by
  refine ⟨fun a b => ?_⟩
  have := leFound_total a b
  rcases Bool.or_eq_true_iff.mp this with h | h
  · exact Or.inl h
  · exact Or.inr h

/-! ## Candidate merge: code/spec equivalence and distinctness -/

theorem foldl_guarded_addCandidate (p : String → Bool) :
    ∀ (l : List String) (acc : List String),
      l.foldl (fun acc x => if p x then addCandidate acc x else acc) acc
        = (l.filter p).foldl addCandidate acc := by
  intro l
  induction l with
  | nil => intro acc; rfl
  | cons x t ih =>
    intro acc
    by_cases h : p x
    · simp [List.filter_cons, h, ih]
    · simp [List.filter_cons, h, ih]

theorem contains_eq_true_iff {l : List String} {x : String} :
    l.contains x = true ↔ x ∈ l := by
  simp [List.contains]

theorem addCandidate_of_mem (acc : List String) {x : String} (hx : x ≠ "")
    (h : sToLower x ∈ acc) : addCandidate acc x = acc := by
  have h1 : (x == "") = false := beq_eq_false_iff_ne.mpr hx
  simp [addCandidate, h1, h]

theorem addCandidate_of_not_mem (acc : List String) {x : String} (hx : x ≠ "")
    (h : sToLower x ∉ acc) : addCandidate acc x = acc ++ [sToLower x] := by
  have h1 : (x == "") = false := beq_eq_false_iff_ne.mpr hx
  simp [addCandidate, h1, h]

theorem dedupGo_cons_mem {acc : List String} {x : String} (l : List String)
    (h : x ∈ acc) : dedupGo acc (x :: l) = dedupGo acc l := by
  simp [dedupGo, h]

theorem dedupGo_cons_not_mem {acc : List String} {x : String} (l : List String)
    (h : x ∉ acc) : dedupGo acc (x :: l) = dedupGo (acc ++ [x]) l := by
  simp [dedupGo, h]

theorem foldl_addCandidate_eq_dedup :
    ∀ (l : List String) (acc : List String), (∀ x ∈ l, x ≠ "") →
      l.foldl addCandidate acc = dedupGo acc (l.map sToLower) := by
  intro l
  induction l with
  | nil => intro acc _; rfl
  | cons x t ih =>
    intro acc hne
    have hx : x ≠ "" := hne x (List.mem_cons_self x t)
    have ht : ∀ y ∈ t, y ≠ "" := fun y hy => hne y (List.mem_cons_of_mem x hy)
    show t.foldl addCandidate (addCandidate acc x) = dedupGo acc (sToLower x :: t.map sToLower)
    by_cases hmem : sToLower x ∈ acc
    · rw [addCandidate_of_mem acc hx hmem, dedupGo_cons_mem _ hmem]
      exact ih acc ht
    · rw [addCandidate_of_not_mem acc hx hmem, dedupGo_cons_not_mem _ hmem]
      exact ih (acc ++ [sToLower x]) ht

theorem dedupGo_append (xs ys : List String) (acc : List String) :
    dedupGo acc (xs ++ ys) = dedupGo (dedupGo acc xs) ys := by
  induction xs generalizing acc with
  | nil => rfl
  | cons x t ih =>
    show dedupGo acc (x :: (t ++ ys)) = _
    by_cases h : acc.contains x
    · simp only [dedupGo, h, if_pos]
      exact ih acc
    · simp only [dedupGo, h, if_neg, Bool.false_eq_true, not_false_iff]
      exact ih (acc ++ [x])

/-- The code's four-pass merge equals the spec's filtered-concatenation merge,
whenever neither input list contains the empty string (generated patterns and
filtered scraped emails never do). -/
theorem mergeCandidates_eq_spec (generatedPatterns scrapedEmails : List String)
    (firstLower lastLower : String)
    (hp : ∀ x ∈ generatedPatterns, x ≠ "") (hs : ∀ x ∈ scrapedEmails, x ≠ "") :
    mergeCandidates generatedPatterns scrapedEmails firstLower lastLower
      = specCandidateOrder generatedPatterns scrapedEmails firstLower lastLower := by
  unfold mergeCandidates specCandidateOrder
  simp only [foldl_guarded_addCandidate]
  have hfil : ∀ (l : List String) (p : String → Bool), (∀ x ∈ l, x ≠ "") →
      ∀ x ∈ l.filter p, x ≠ "" := by
    intro l p hl x hx
    exact hl x (List.mem_of_mem_filter hx)
  rw [foldl_addCandidate_eq_dedup _ _ (hfil _ _ hp),
    foldl_addCandidate_eq_dedup _ _ (hfil _ _ hs),
    foldl_addCandidate_eq_dedup _ _ (hfil _ _ hs),
    foldl_addCandidate_eq_dedup _ _ (hfil _ _ hp)]
  unfold dedupKeepFirst
  simp only [List.map_append, dedupGo_append]

theorem dedupGo_nodup (l : List String) :
    ∀ acc : List String, acc.Nodup → (dedupGo acc l).Nodup := by
  induction l with
  | nil => intro acc h; exact h
  | cons x t ih =>
    intro acc h
    by_cases hmem : acc.contains x
    · simp only [dedupGo, hmem, if_pos]
      exact ih acc h
    · simp only [dedupGo, hmem, if_neg, Bool.false_eq_true, not_false_iff]
      apply ih
      have hx : x ∉ acc := fun hx => hmem (contains_eq_true_iff.mpr hx)
      simp [List.nodup_append, h, hx]

theorem addCandidate_nodup (acc : List String) (x : String) (h : acc.Nodup) :
    (addCandidate acc x).Nodup := by
  unfold addCandidate
  split
  · exact h
  · split
    · exact h
    · rename_i hmem
      have hx : sToLower x ∉ acc := fun hx => hmem (contains_eq_true_iff.mpr hx)
      simp [List.nodup_append, h, hx]

theorem foldl_addCandidate_nodup (l : List String) :
    ∀ acc : List String, acc.Nodup → (l.foldl addCandidate acc).Nodup := by
  induction l with
  | nil => intro acc h; exact h
  | cons x t ih => intro acc h; exact ih _ (addCandidate_nodup acc x h)

theorem foldl_guarded_nodup (p : String → Bool) (l : List String)
    (acc : List String) (h : acc.Nodup) :
    (l.foldl (fun acc x => if p x then addCandidate acc x else acc) acc).Nodup := by
  rw [foldl_guarded_addCandidate]
  exact foldl_addCandidate_nodup _ acc h

/-- The merged candidate list never contains duplicates. -/
theorem mergeCandidates_nodup (generatedPatterns scrapedEmails : List String)
    (firstLower lastLower : String) :
    (mergeCandidates generatedPatterns scrapedEmails firstLower lastLower).Nodup := by
  unfold mergeCandidates
  apply foldl_guarded_nodup
  apply foldl_guarded_nodup
  apply foldl_guarded_nodup
  apply foldl_guarded_nodup
  exact List.nodup_nil

/-! ## Per-step behaviour of the candidate loop -/


theorem finishCandidate_methods (st : EngineState) (email : String)
    (s g : Bool) (vs : Option Bool) (vm : String) (c : Int) (m : List String)
    (lg : List (String × String)) :
    (finishCandidate st email s g vs vm c m lg).methodsUsed = m := rfl

theorem finishCandidate_log (st : EngineState) (email : String)
    (s g : Bool) (vs : Option Bool) (vm : String) (c : Int) (m : List String)
    (lg : List (String × String)) :
    (finishCandidate st email s g vs vm c m lg).log = lg := rfl

theorem finishCandidate_found_shape (st : EngineState) (email : String)
    (s g : Bool) (vs : Option Bool) (vm : String) (c : Int) (m : List String)
    (lg : List (String × String)) :
    (finishCandidate st email s g vs vm c m lg).foundEmails = st.foundEmails
      ∨ ∃ fe : FoundEmailData,
          (finishCandidate st email s g vs vm c m lg).foundEmails
              = st.foundEmails ++ [fe]
          ∧ fe.email = email ∧ fe.is_generic = g ∧ fe.verification_status = vs := by
  simp only [finishCandidate]
  split
  · exact Or.inr ⟨_, rfl, rfl, rfl, rfl⟩
  · exact Or.inl rfl

theorem assess_of_regex_false (cfg : SleuthConfig) (domain f l : String)
    (pats scr : List String) (ms : Option String)
    (verify : String → Option Bool × String) (st : EngineState) (email : String)
    (hre : emailRegexIsMatch email = false) :
    assessCandidate cfg domain f l pats scr ms verify st email = st := by
  simp [assessCandidate, hre]

theorem assess_methods_none (cfg : SleuthConfig) (domain f l : String)
    (pats scr : List String) (verify : String → Option Bool × String)
    (st : EngineState) (email : String) :
    (assessCandidate cfg domain f l pats scr none verify st email).methodsUsed
      = st.methodsUsed := by
  by_cases hre : emailRegexIsMatch email
  · simp only [assessCandidate, hre, Bool.not_true, Bool.false_eq_true, if_false,
      Option.isSome_none, Bool.false_and, Option.isNone_none, if_true]
    split <;> rfl
  · simp [assessCandidate, hre]

/-- Shape of one loop iteration's effect on the retained list: either
unchanged, or exactly one record appended, for this candidate, carrying this
candidate's `is_generic` feature, and unverified when there is no mail
server. -/
theorem assess_found_shape (cfg : SleuthConfig) (domain f l : String)
    (pats scr : List String) (ms : Option String)
    (verify : String → Option Bool × String) (st : EngineState) (email : String) :
    (assessCandidate cfg domain f l pats scr ms verify st email).foundEmails
        = st.foundEmails
      ∨ ∃ fe : FoundEmailData,
          (assessCandidate cfg domain f l pats scr ms verify st email).foundEmails
              = st.foundEmails ++ [fe]
          ∧ fe.email = email
          ∧ fe.is_generic = isGenericLocalPart cfg email
          ∧ (ms = none → fe.verification_status = none) := by
  by_cases hre : emailRegexIsMatch email
  · simp only [assessCandidate, hre, Bool.not_true, Bool.false_eq_true, if_false, if_true]
    split
    · exact Or.inl rfl
    · split
      · rename_i hsv
        rcases finishCandidate_found_shape st email _ _ _ _ _ _ _ with h | ⟨fe, h1, h2, h3, h4⟩
        · exact Or.inl h
        · refine Or.inr ⟨fe, h1, h2, h3, ?_⟩
          intro hms
          subst hms
          simp at hsv
      · rcases finishCandidate_found_shape st email _ _ _ _ _ _ _ with h | ⟨fe, h1, h2, h3, h4⟩
        · exact Or.inl h
        · exact Or.inr ⟨fe, h1, h2, h3, fun _ => h4⟩
  · simp [assessCandidate, hre]

theorem assess_log_shape (cfg : SleuthConfig) (domain f l : String)
    (pats scr : List String) (ms : Option String)
    (verify : String → Option Bool × String) (st : EngineState) (email : String) :
    (assessCandidate cfg domain f l pats scr ms verify st email).log = st.log
      ∨ ∃ v, (assessCandidate cfg domain f l pats scr ms verify st email).log
          = logInsert st.log email v := by
  by_cases hre : emailRegexIsMatch email
  · simp only [assessCandidate, hre, Bool.not_true, Bool.false_eq_true, if_false, if_true]
    split
    · exact Or.inl rfl
    · split
      · exact Or.inr ⟨_, finishCandidate_log ..⟩
      · exact Or.inr ⟨_, finishCandidate_log ..⟩
  · simp [assessCandidate, hre]

theorem assess_log_insert (cfg : SleuthConfig) (domain f l : String)
    (pats scr : List String) (ms : Option String)
    (verify : String → Option Bool × String) (st : EngineState) (email : String)
    (hre : emailRegexIsMatch email = true)
    (hadm : admitsCandidate cfg domain scr email = true) :
    ∃ v, (assessCandidate cfg domain f l pats scr ms verify st email).log
        = logInsert st.log email v := by
  simp only [assessCandidate, hre, Bool.not_true, Bool.false_eq_true, if_false, if_true]
  split
  · rename_i hskip
    exfalso
    simp only [Bool.and_eq_true, Bool.not_eq_true'] at hskip
    simp only [admitsCandidate, Bool.or_eq_true] at hadm
    rcases hadm with h | h
    · rw [hskip.1] at h
      exact Bool.false_ne_true h
    · rw [hskip.2] at h
      exact Bool.false_ne_true h
  · split
    · exact ⟨_, finishCandidate_log ..⟩
    · exact ⟨_, finishCandidate_log ..⟩

/-! ## Verification-log machinery (association-list model of the `HashMap`) -/

theorem find?_map_replace (l : List (String × String)) {k k' : String} (v : String)
    (h : k' ≠ k) :
    List.find? (fun kv => kv.1 == k)
        (l.map (fun kv => if kv.1 == k' then (k', v) else kv))
      = List.find? (fun kv => kv.1 == k) l := by
  induction l with
  | nil => rfl
  | cons kv t ih =>
    simp only [List.map_cons, List.find?_cons]
    by_cases hk : (kv.1 == k') = true
    · have h1 : ((if kv.1 == k' then (k', v) else kv).1 == k) = false := by
        simp only [hk, if_true]
        exact beq_eq_false_iff_ne.mpr h
      have h2 : (kv.1 == k) = false := by
        rw [beq_iff_eq.mp hk]
        exact beq_eq_false_iff_ne.mpr h
      simp only [h1, h2]
      exact ih
    · have he : (if kv.1 == k' then (k', v) else kv) = kv := by
        simp [hk]
      rw [he]
      by_cases h2 : (kv.1 == k) = true
      · simp only [h2]
      · simp only [Bool.not_eq_true] at h2
        simp only [h2]
        exact ih

theorem filter_map_replace (l : List (String × String)) {k k' : String} (v : String)
    (hpres : ∀ kv : String × String,
      ((if kv.1 == k' then (k', v) else kv).1 == k) = (kv.1 == k)) :
    (l.map (fun kv => if kv.1 == k' then (k', v) else kv)).filter
        (fun kv => kv.1 == k)
      = (l.filter (fun kv => kv.1 == k)).map
          (fun kv => if kv.1 == k' then (k', v) else kv) := by
  rw [List.filter_map]
  congr 1
  apply List.filter_congr
  intro kv _
  exact hpres kv

theorem logLookup_insert_ne (l : List (String × String)) {k' : String} (v : String)
    {k : String} (h : k' ≠ k) : logLookup (logInsert l k' v) k = logLookup l k := by
  unfold logInsert
  split
  · unfold logLookup
    rw [find?_map_replace l v h]
  · unfold logLookup
    rw [List.find?_append]
    have hnone : List.find? (fun kv => kv.1 == k) [(k', v)] = none := by
      simp [beq_eq_false_iff_ne.mpr h]
    rw [hnone]
    simp

theorem countKey_insert_ne (l : List (String × String)) {k' : String} (v : String)
    {k : String} (h : k' ≠ k) : countKey (logInsert l k' v) k = countKey l k := by
  unfold logInsert
  split
  · unfold countKey
    rw [filter_map_replace l v, List.length_map]
    intro kv
    by_cases hk : (kv.1 == k') = true
    · simp only [hk, if_true]
      rw [beq_iff_eq.mp hk]
    · simp [hk]
  · unfold countKey
    rw [List.filter_append]
    have h0 : List.filter (fun kv => kv.1 == k) [(k', v)] = [] := by
      simp [beq_eq_false_iff_ne.mpr h]
    rw [h0, List.append_nil]

theorem countKey_insert_self (l : List (String × String)) (k v : String)
    (h : countKey l k ≤ 1) : countKey (logInsert l k v) k = 1 := by
  have h' : (l.filter (fun kv => kv.1 == k)).length ≤ 1 := h
  unfold logInsert
  split
  · rename_i hany
    show ((l.map (fun kv => if kv.1 == k then (k, v) else kv)).filter
      (fun kv => kv.1 == k)).length = 1
    rw [filter_map_replace l v, List.length_map]
    · have hge : 1 ≤ (l.filter (fun kv => kv.1 == k)).length := by
        rcases List.any_eq_true.mp hany with ⟨kv, hkv, hp⟩
        have hmem : kv ∈ l.filter (fun kv => kv.1 == k) := List.mem_filter.mpr ⟨hkv, hp⟩
        exact List.length_pos.mpr (List.ne_nil_of_mem hmem)
      omega
    · intro kv
      by_cases hk : (kv.1 == k) = true
      · simp only [hk, if_true]
        exact beq_self_eq_true k
      · simp [hk]
  · rename_i hany
    show ((l ++ [(k, v)]).filter (fun kv => kv.1 == k)).length = 1
    rw [List.filter_append]
    have h0 : l.filter (fun kv => kv.1 == k) = [] := by
      rw [List.filter_eq_nil_iff]
      intro kv hkv hp
      exact hany (List.any_eq_true.mpr ⟨kv, hkv, hp⟩)
    rw [h0]
    simp

theorem countKey_le_one_insert (l : List (String × String)) (k v : String)
    (h : ∀ k₀, countKey l k₀ ≤ 1) : ∀ k₀, countKey (logInsert l k v) k₀ ≤ 1 := by
  intro k₀
  by_cases hk : k = k₀
  · subst hk
    rw [countKey_insert_self l k v (h k)]
  · rw [countKey_insert_ne l v hk]
    exact h k₀


/-! ## Engine-level invariants -/

theorem foldl_invariant {α β : Type _} (f : β → α → β) (P : β → Prop) :
    ∀ (l : List α), (∀ st e, e ∈ l → P st → P (f st e)) →
      ∀ st, P st → P (l.foldl f st) := by
  intro l
  induction l with
  | nil => intro _ st h; exact h
  | cons x t ih =>
    intro hstep st h
    exact ih (fun st e he hp => hstep st e (List.mem_cons_of_mem x he) hp) _
      (hstep st x (List.mem_cons_self x t) h)

theorem methods0_no_smtp (patterns scraped : List String) :
    "smtp_verification"
      ∉ ((if patterns.isEmpty then [] else ["pattern_generation"])
          ++ (if scraped.isEmpty then [] else ["website_scraping"]) : List String) := by
  intro h
  rcases List.mem_append.mp h with h | h <;> split at h <;>
    simp only [List.not_mem_nil, List.mem_singleton] at h <;>
    exact absurd h (by decide)

/-- After a failed mail-server resolution, the whole candidate loop preserves:
no SMTP method recorded, all retained candidates unverified, and the DNS
failure entry intact under the domain key. -/
theorem engineAssess_dns_failure (cfg : SleuthConfig)
    (firstName lastName domain : String) (patterns scraped : List String)
    (e : String) (verify : String → Option Bool × String)
    (hdom : emailRegexIsMatch domain = false) :
    let st := engineAssess cfg firstName lastName domain patterns scraped
      (.error e) verify
    "smtp_verification" ∉ st.methodsUsed
      ∧ (∀ fe ∈ st.foundEmails, fe.verification_status = none)
      ∧ logLookup st.log domain = some ("DNS resolution failed: " ++ e) := by
  intro st
  have key : ∀ s : EngineState,
      ("smtp_verification" ∉ s.methodsUsed
        ∧ (∀ fe ∈ s.foundEmails, fe.verification_status = none)
        ∧ logLookup s.log domain = some ("DNS resolution failed: " ++ e)) →
      ∀ c : String,
      ("smtp_verification" ∉ (assessCandidate cfg domain (sToLower firstName)
            (sToLower lastName) patterns scraped none verify s c).methodsUsed
        ∧ (∀ fe ∈ (assessCandidate cfg domain (sToLower firstName)
            (sToLower lastName) patterns scraped none verify s c).foundEmails,
            fe.verification_status = none)
        ∧ logLookup (assessCandidate cfg domain (sToLower firstName)
            (sToLower lastName) patterns scraped none verify s c).log domain
          = some ("DNS resolution failed: " ++ e)) := by
    intro s ⟨hm, hf, hl⟩ c
    by_cases hre : emailRegexIsMatch c
    · refine ⟨?_, ?_, ?_⟩
      · rw [assess_methods_none]
        exact hm
      · rcases assess_found_shape cfg domain (sToLower firstName) (sToLower lastName)
          patterns scraped none verify s c with h | ⟨fe, h1, _, _, h4⟩
        · rw [h]
          exact hf
        · rw [h1]
          intro fe' hfe'
          rcases List.mem_append.mp hfe' with hh | hh
          · exact hf fe' hh
          · rw [List.mem_singleton.mp hh]
            exact h4 rfl
      · rcases assess_log_shape cfg domain (sToLower firstName) (sToLower lastName)
          patterns scraped none verify s c with h | ⟨v, h⟩
        · rw [h]
          exact hl
        · rw [h]
          have hne : c ≠ domain := by
            intro hcd
            rw [hcd, hdom] at hre
            exact Bool.false_ne_true hre
          rw [logLookup_insert_ne s.log v hne]
          exact hl
    · rw [assess_of_regex_false cfg domain (sToLower firstName) (sToLower lastName)
        patterns scraped none verify s c (Bool.not_eq_true _ ▸ hre)]
      exact ⟨hm, hf, hl⟩
  refine foldl_invariant _ _ _ (fun s c _ hp => key s hp c) _ ?_
  refine ⟨methods0_no_smtp patterns scraped, ?_, ?_⟩
  · intro fe hfe
    exact absurd hfe (List.not_mem_nil fe)
  · simp [logLookup, List.find?]

/-- Claim C6 theorem body. -/
theorem findEmailCore_dns_failure (cfg : SleuthConfig)
    (firstName lastName domain : String) (patterns scraped : List String)
    (e : String) (verify : String → Option Bool × String)
    (hdom : emailRegexIsMatch domain = false) :
    let r := findEmailCore cfg firstName lastName domain patterns scraped
      (.error e) verify
    logLookup r.verification_log domain = some ("DNS resolution failed: " ++ e)
      ∧ (∀ fe ∈ r.found_emails, fe.verification_status = none)
      ∧ "smtp_verification" ∉ r.methods_used := by
  intro r
  obtain ⟨hm, hf, hl⟩ := engineAssess_dns_failure cfg firstName lastName domain
    patterns scraped e verify hdom
  refine ⟨hl, ?_, hm⟩
  intro fe hfe
  have : fe ∈ (engineAssess cfg firstName lastName domain patterns scraped
      (.error e) verify).foundEmails := by
    exact (List.mem_insertionSort foundOrder).mp hfe
  exact hf fe this


/-! ## Exactly-one-log-entry invariant (claim C10) -/

theorem foldl_countKey_const (cfg : SleuthConfig) (domain f l : String)
    (pats scr : List String) (ms : Option String)
    (verify : String → Option Bool × String) (email : String) :
    ∀ (cs : List String) (st : EngineState), email ∉ cs →
      countKey (cs.foldl (assessCandidate cfg domain f l pats scr ms verify) st).log email
        = countKey st.log email := by
  intro cs
  induction cs with
  | nil => intro st _; rfl
  | cons c t ih =>
    intro st hmem
    have hc : c ≠ email := fun h => hmem (h ▸ List.mem_cons_self c t)
    have ht : email ∉ t := fun h => hmem (List.mem_cons_of_mem c h)
    show countKey (t.foldl _ (assessCandidate cfg domain f l pats scr ms verify st c)).log email = _
    rw [ih _ ht]
    rcases assess_log_shape cfg domain f l pats scr ms verify st c with h | ⟨v, h⟩
    · rw [h]
    · rw [h, countKey_insert_ne st.log v hc]

theorem foldl_countKey_le_one (cfg : SleuthConfig) (domain f l : String)
    (pats scr : List String) (ms : Option String)
    (verify : String → Option Bool × String) :
    ∀ (cs : List String) (st : EngineState), (∀ k, countKey st.log k ≤ 1) →
      ∀ k, countKey (cs.foldl (assessCandidate cfg domain f l pats scr ms verify) st).log k ≤ 1 := by
  intro cs
  induction cs with
  | nil => intro st h; exact h
  | cons c t ih =>
    intro st h
    apply ih
    intro k
    rcases assess_log_shape cfg domain f l pats scr ms verify st c with hh | ⟨v, hh⟩
    · rw [hh]
      exact h k
    · rw [hh]
      exact countKey_le_one_insert st.log c v h k

theorem foldl_countKey_one (cfg : SleuthConfig) (domain f l : String)
    (pats scr : List String) (ms : Option String)
    (verify : String → Option Bool × String) (email : String)
    (hre : emailRegexIsMatch email = true)
    (hadm : admitsCandidate cfg domain scr email = true) :
    ∀ (cs : List String) (st : EngineState), (∀ k, countKey st.log k ≤ 1) →
      cs.Nodup → email ∈ cs →
      countKey (cs.foldl (assessCandidate cfg domain f l pats scr ms verify) st).log email
        = 1 := by
  intro cs
  induction cs with
  | nil => intro st _ _ hmem; exact absurd hmem (List.not_mem_nil email)
  | cons c t ih =>
    intro st huniq hnodup hmem
    by_cases hc : c = email
    · subst hc
      have hnt : c ∉ t := (List.nodup_cons.mp hnodup).1
      show countKey (t.foldl _ (assessCandidate cfg domain f l pats scr ms verify st c)).log c = 1
      rw [foldl_countKey_const cfg domain f l pats scr ms verify c t _ hnt]
      obtain ⟨v, hv⟩ := assess_log_insert cfg domain f l pats scr ms verify st c hre hadm
      rw [hv]
      exact countKey_insert_self st.log c v (huniq c)
    · have hmt : email ∈ t := by
        rcases List.mem_cons.mp hmem with h | h
        · exact absurd h.symm hc
        · exact h
      apply ih _ _ (List.nodup_cons.mp hnodup).2 hmt
      intro k
      rcases assess_log_shape cfg domain f l pats scr ms verify st c with hh | ⟨v, hh⟩
      · rw [hh]
        exact huniq k
      · rw [hh]
        exact countKey_le_one_insert st.log c v huniq k

/-- Claim C10 theorem body: every admitted, regex-valid merged candidate ends
up with exactly one verification-log entry under its email. -/
theorem findEmailCore_log_unique (cfg : SleuthConfig)
    (firstName lastName domain : String) (patterns scraped : List String)
    (dns : Except String String) (verify : String → Option Bool × String)
    (email : String)
    (hmem : email ∈ mergeCandidates patterns scraped (sToLower firstName) (sToLower lastName))
    (hre : emailRegexIsMatch email = true)
    (hadm : admitsCandidate cfg domain scraped email = true) :
    countKey (findEmailCore cfg firstName lastName domain patterns scraped dns
      verify).verification_log email = 1 := by
  show countKey (engineAssess cfg firstName lastName domain patterns scraped dns
    verify).log email = 1
  unfold engineAssess
  apply foldl_countKey_one cfg domain (sToLower firstName) (sToLower lastName)
    patterns scraped _ verify email hre hadm _ _ _
    (mergeCandidates_nodup patterns scraped (sToLower firstName) (sToLower lastName))
    hmem
  cases dns with
  | ok ms =>
    intro k
    exact Nat.zero_le 1
  | error e =>
    intro k
    unfold countKey
    by_cases h : (domain == k) = true <;> simp [List.filter, h]


/-! ## Selection rule facts (claim C1) -/

theorem selectMostLikely_spec {found : List FoundEmailData} {ct gt : Nat}
    {sel : FoundEmailData} (h : selectMostLikely found ct gt = some sel) :
    sel ∈ found ∧ ct ≤ sel.confidence
      ∧ (sel.is_generic = true → gt ≤ sel.confidence) := by
  unfold selectMostLikely at h
  cases hfind : found.find? (fun e => !e.is_generic && decide (ct ≤ e.confidence)) with
  | some e =>
    rw [hfind] at h
    cases h
    have hp := List.find?_some hfind
    simp only [Bool.and_eq_true, Bool.not_eq_true', decide_eq_true_eq] at hp
    exact ⟨List.mem_of_find?_eq_some hfind, hp.2, fun hg => absurd hg (by simp [hp.1])⟩
  | none =>
    rw [hfind] at h
    cases found with
    | nil => exact Option.noConfusion h
    | cons top rest =>
      have h' : (if (decide (ct ≤ top.confidence)
            && (!top.is_generic || decide (gt ≤ top.confidence))) = true then
          some top else none) = some sel := h
      by_cases hcond : (decide (ct ≤ top.confidence)
          && (!top.is_generic || decide (gt ≤ top.confidence))) = true
      · rw [if_pos hcond] at h'
        cases h'
        simp only [Bool.and_eq_true, Bool.or_eq_true, Bool.not_eq_true',
          decide_eq_true_eq] at hcond
        refine ⟨List.mem_cons_self sel rest, hcond.1, ?_⟩
        intro hg
        rcases hcond.2 with hh | hh
        · rw [hg] at hh
          exact absurd hh (by simp)
        · exact hh
      · rw [if_neg hcond] at h'
        exact Option.noConfusion h'

/-- Every record retained by the loop carries the `is_generic` feature of its
own email string. -/
theorem engineAssess_generic_feature (cfg : SleuthConfig)
    (firstName lastName domain : String) (patterns scraped : List String)
    (dns : Except String String) (verify : String → Option Bool × String) :
    ∀ fe ∈ (engineAssess cfg firstName lastName domain patterns scraped dns
        verify).foundEmails,
      fe.is_generic = isGenericLocalPart cfg fe.email := by
  unfold engineAssess
  apply foldl_invariant _
    (fun s : EngineState => ∀ fe ∈ s.foundEmails, fe.is_generic = isGenericLocalPart cfg fe.email)
  · intro s c _ hp
    rcases assess_found_shape cfg domain (sToLower firstName) (sToLower lastName)
      patterns scraped _ verify s c with h | ⟨fe, h1, h2, h3, _⟩
    · rw [h]
      exact hp
    · rw [h1]
      intro fe' hfe'
      rcases List.mem_append.mp hfe' with hh | hh
      · exact hp fe' hh
      · rw [List.mem_singleton.mp hh, h3, h2]
  · intro fe hfe
    exact absurd hfe (List.not_mem_nil fe)

/-- Claim C1 theorem body: a generic most-likely email always clears both
thresholds. -/
theorem findEmailCore_generic_selection (cfg : SleuthConfig)
    (firstName lastName domain : String) (patterns scraped : List String)
    (dns : Except String String) (verify : String → Option Bool × String)
    (em : String)
    (hsel : (findEmailCore cfg firstName lastName domain patterns scraped dns
      verify).most_likely_email = some em)
    (hgen : isGenericLocalPart cfg em = true) :
    cfg.confidenceThreshold
        ≤ (findEmailCore cfg firstName lastName domain patterns scraped dns
          verify).confidence_score
      ∧ cfg.genericConfidenceThreshold
        ≤ (findEmailCore cfg firstName lastName domain patterns scraped dns
          verify).confidence_score := by
  rcases hs : selectMostLikely
      (sortFound (engineAssess cfg firstName lastName domain patterns scraped dns
        verify).foundEmails)
      cfg.confidenceThreshold cfg.genericConfidenceThreshold with _ | sel
  · have h' : (selectMostLikely
        (sortFound (engineAssess cfg firstName lastName domain patterns scraped dns
          verify).foundEmails)
        cfg.confidenceThreshold cfg.genericConfidenceThreshold).map (·.email)
          = some em := hsel
    rw [hs] at h'
    exact Option.noConfusion h'
  · have hem : sel.email = em := by
      have : (findEmailCore cfg firstName lastName domain patterns scraped dns
          verify).most_likely_email = some sel.email := by
        show (selectMostLikely _ _ _).map (·.email) = _
        rw [hs]
        rfl
      rw [this] at hsel
      exact Option.some.inj hsel
    have hscore : (findEmailCore cfg firstName lastName domain patterns scraped dns
        verify).confidence_score = sel.confidence := by
      show ((selectMostLikely _ _ _).map (·.confidence)).getD 0 = _
      rw [hs]
      rfl
    obtain ⟨hmem, hct, hgt⟩ := selectMostLikely_spec hs
    have hfe : sel ∈ (engineAssess cfg firstName lastName domain patterns scraped dns
        verify).foundEmails := (List.mem_insertionSort foundOrder).mp hmem
    have hfeat := engineAssess_generic_feature cfg firstName lastName domain patterns
      scraped dns verify sel hfe
    rw [hem, hgen] at hfeat
    rw [hscore]
    exact ⟨hct, hgt hfeat⟩


/-! ## Substring helper facts for the claim theorems -/

theorem prefixOf_append (needle : List Char) :
    ∀ (m t : List Char), prefixOf needle m = true → prefixOf needle (m ++ t) = true := by
  induction needle with
  | nil => intro m t _; rfl
  | cons n ns ih =>
    intro m t hp
    cases m with
    | nil => exact absurd hp (by simp [prefixOf])
    | cons x xs =>
      simp only [List.cons_append, prefixOf, Bool.and_eq_true] at hp ⊢
      exact ⟨hp.1, ih xs t hp.2⟩

theorem subOf_append_left (needle : List Char) :
    ∀ (h t : List Char), subOf needle h = true → subOf needle (h ++ t) = true := by
  intro h
  induction h with
  | nil =>
    intro t hh
    have hn : needle = [] := by
      simpa [subOf, List.isEmpty_iff] using hh
    subst hn
    cases t with
    | nil => rfl
    | cons c r => rfl
  | cons c r ih =>
    intro t hh
    simp only [subOf, Bool.or_eq_true] at hh
    simp only [List.cons_append, subOf, Bool.or_eq_true]
    rcases hh with hp | hs
    · exact Or.inl (prefixOf_append needle (c :: r) t hp)
    · exact Or.inr (ih t hs)

theorem sContains_append_left (s t sub : String) (h : sContains s sub = true) :
    sContains (s ++ t) sub = true := by
  unfold sContains at *
  have hd : (s ++ t).data = s.data ++ t.data := by
    cases s
    cases t
    rfl
  rw [hd]
  exact subOf_append_left sub.data s.data t.data h


/-! ## Claim theorems -/

/-- C2: for every candidate admitted by the admission rule
(`matches_primary_domain` or scraped generic), the pre-SMTP confidence
computed by the engine equals the spec's arithmetic: the base sum of the five
bonuses, adjusted by the generic penalty. -/
theorem claim_C2 (is_pattern is_scraped name_in_email is_generic
    matches_primary_domain : Bool)
    (hadm : (matches_primary_domain || (is_scraped && is_generic)) = true) :
    preSmtpConfidence is_pattern is_scraped name_in_email is_generic
        matches_primary_domain
      = claimPreSmtp is_pattern is_scraped name_in_email is_generic
        matches_primary_domain := by
  revert hadm
  revert is_pattern is_scraped name_in_email is_generic matches_primary_domain
  decide

/-- Witness for C2 at a concrete admitted candidate profile. -/
theorem claim_C2_witness :
    (true || (false && false)) = true
      ∧ preSmtpConfidence true false true false true
        = claimPreSmtp true false true false true :=
  ⟨by decide, claim_C2 true false true false true (by decide)⟩

/-- C3: the engine's merged candidate list is exactly the spec's order —
name-matching patterns, name-matching scraped, remaining scraped, remaining
patterns, lowercased, with later duplicates skipped — for any generated
pattern list and filtered scraped list (whose elements are never empty). -/
theorem claim_C3 (generatedPatterns scrapedEmails : List String)
    (firstLower lastLower : String)
    (hp : ∀ x ∈ generatedPatterns, x ≠ "") (hs : ∀ x ∈ scrapedEmails, x ≠ "") :
    mergeCandidates generatedPatterns scrapedEmails firstLower lastLower
      = specCandidateOrder generatedPatterns scrapedEmails firstLower lastLower :=
  mergeCandidates_eq_spec generatedPatterns scrapedEmails firstLower lastLower hp hs

/-- Witness for C3 on concrete lists exercising all four buckets and a
duplicate. -/
theorem claim_C3_witness :
    mergeCandidates ["jane.doe@x.co", "info@x.co"] ["Jane.Doe@x.co", "sales@x.co"]
        "jane" "doe"
      = specCandidateOrder ["jane.doe@x.co", "info@x.co"]
        ["Jane.Doe@x.co", "sales@x.co"] "jane" "doe" :=
  claim_C3 ["jane.doe@x.co", "info@x.co"] ["Jane.Doe@x.co", "sales@x.co"]
    "jane" "doe" (by decide) (by decide)

/-- C4: on a 2xx target response, a positive completion for the random
recipient yields an inconclusive, retriable result whose message notes the
possible catch-all; a rejected random recipient or any (swallowed) error
during the catch-all step yields a conclusive `exists = true` with
`is_catch_all = false`. -/
theorem claim_C4 (code : Nat) (target_message : String) (probe : CatchAllProbe) :
    (probe = .accepted →
      (interpretTargetResponse code .positiveCompletion target_message
          (catchAllFlag probe)).exists? = none
        ∧ (interpretTargetResponse code .positiveCompletion target_message
            (catchAllFlag probe)).should_retry = true
        ∧ sContains (interpretTargetResponse code .positiveCompletion target_message
            (catchAllFlag probe)).message "Catch-All" = true)
      ∧ (probe ≠ .accepted →
        (interpretTargetResponse code .positiveCompletion target_message
            (catchAllFlag probe)).exists? = some true
          ∧ (interpretTargetResponse code .positiveCompletion target_message
              (catchAllFlag probe)).is_catch_all = false
          ∧ (interpretTargetResponse code .positiveCompletion target_message
              (catchAllFlag probe)).should_retry = false) := by
  cases probe with
  | accepted =>
    refine ⟨fun _ => ⟨rfl, rfl, ?_⟩, fun h => absurd rfl h⟩
    show sContains ((("SMTP accepted (Possible Catch-All): " ++ toString code) ++ " ")
      ++ target_message) "Catch-All" = true
    apply sContains_append_left
    apply sContains_append_left
    apply sContains_append_left
    decide
  | rejected => exact ⟨(fun h => nomatch h), fun _ => ⟨rfl, rfl, rfl⟩⟩
  | failed => exact ⟨(fun h => nomatch h), fun _ => ⟨rfl, rfl, rfl⟩⟩

/-- Witness for C4: a concrete accepted catch-all probe and a concrete
rejected one. -/
theorem claim_C4_witness :
    ((interpretTargetResponse 250 .positiveCompletion "OK" (catchAllFlag .accepted)).exists? = none
      ∧ (interpretTargetResponse 250 .positiveCompletion "OK" (catchAllFlag .accepted)).should_retry = true
      ∧ sContains (interpretTargetResponse 250 .positiveCompletion "OK"
          (catchAllFlag .accepted)).message "Catch-All" = true)
    ∧ ((interpretTargetResponse 250 .positiveCompletion "OK" (catchAllFlag .rejected)).exists? = some true
      ∧ (interpretTargetResponse 250 .positiveCompletion "OK" (catchAllFlag .rejected)).is_catch_all = false
      ∧ (interpretTargetResponse 250 .positiveCompletion "OK" (catchAllFlag .rejected)).should_retry = false) :=
  ⟨(claim_C4 250 "OK" .accepted).1 rfl, (claim_C4 250 "OK" .rejected).2 (by decide)⟩

/-- C8: the claim says `generate_email_patterns` is total, returning a list on
every input including multi-byte Unicode names; the code instead panics on
`first_name = "zoë"` — the byte slice `&first[0..3]` falls inside the
two-byte character `ë` (byte index 3 is not a character boundary).  The model
evaluates to `none` (the panic marker) at that input. -/
theorem claim_C8 : generate_email_patterns "zoë" "doe" "example.com" = none := by
  decide

/-- C9 counterexample: an error whose text contains "timed out" arriving at
the initial connect is classified by the port-25-blocked heuristic, which is
inconclusive with `should_retry = false` — not retriable as the claim states
for every stage. -/
theorem claim_C9_counterexample :
    sContains "connection timed out" "timed out" = true
      ∧ (connectErrorResult "connection timed out" "mail.example.com").exists? = none
      ∧ (connectErrorResult "connection timed out"
          "mail.example.com").should_retry = false := by
  decide

/-- C9 (amended): an error containing "timed out" is inconclusive at every
stage, but retriability differs: at the initial connect the port-25-blocked
heuristic returns `should_retry = false`; at the later stages (through
`handle_smtp_error`) the result is `should_retry = true`, provided no earlier
classifier rule fires (the 550 user-unknown rule, the permanent-5xx rule, or
the connection-refused rule). -/
theorem claim_C9 (e s : String) (htimeout : sContains e "timed out" = true) :
    ((connectErrorResult e s).exists? = none
      ∧ (connectErrorResult e s).should_retry = false)
    ∧ (sContains e "connection refused" = false →
      ¬(sContains e "550" = true
        ∧ (sContains e "does not exist" || sContains e "no such user"
            || sContains e "user unknown" || sContains e "recipient not found"
            || sContains e "NoSuchUser") = true) →
      ¬(sContains e "5" = true ∧ sContains e "permanent" = true) →
      (handle_smtp_error e s).exists? = none
        ∧ (handle_smtp_error e s).should_retry = true) := by
  constructor
  · simp only [connectErrorResult, htimeout, Bool.true_or, if_true]
    exact ⟨rfl, rfl⟩
  · intro hrefused h550 h5perm
    unfold handle_smtp_error
    by_cases c1 : (sContains e "550"
        && (sContains e "does not exist" || sContains e "no such user"
          || sContains e "user unknown" || sContains e "recipient not found"
          || sContains e "NoSuchUser")) = true
    · exact absurd (Bool.and_eq_true_iff.mp c1) h550
    · rw [if_neg c1]
      by_cases c2 : (sContains e "4"
          && (sContains e "temporary" || sContains e "transient")) = true
      · rw [if_pos c2]
        exact ⟨rfl, rfl⟩
      · rw [if_neg c2]
        by_cases c3 : (sContains e "5" && sContains e "permanent") = true
        · exact absurd (Bool.and_eq_true_iff.mp c3) h5perm
        · rw [if_neg c3, if_neg (by rw [hrefused]; exact Bool.false_ne_true)]
          by_cases c5 : sContains e "connection reset" = true
          · rw [if_pos c5]
            exact ⟨rfl, rfl⟩
          · rw [if_neg c5, if_pos htimeout]
            exact ⟨rfl, rfl⟩

/-- Witness for C9 at a concrete timeout error string. -/
theorem claim_C9_witness :
    (((connectErrorResult "connection timed out" "mx.x.co").exists? = none
      ∧ (connectErrorResult "connection timed out" "mx.x.co").should_retry = false))
    ∧ ((handle_smtp_error "connection timed out" "mx.x.co").exists? = none
      ∧ (handle_smtp_error "connection timed out" "mx.x.co").should_retry = true) :=
  ⟨(claim_C9 "connection timed out" "mx.x.co" (by decide)).1,
    (claim_C9 "connection timed out" "mx.x.co" (by decide)).2 (by decide) (by decide)
      (by decide)⟩


/-- C1: the selection rule never sets `most_likely_email` to a generic address
whose confidence is below `generic_confidence_threshold`: whenever the
selected address is generic, its confidence score clears both the base and
the generic thresholds. -/
theorem claim_C1 (cfg : SleuthConfig) (firstName lastName domain : String)
    (patterns scraped : List String) (dns : Except String String)
    (verify : String → Option Bool × String) (em : String)
    (hsel : (findEmailCore cfg firstName lastName domain patterns scraped dns
      verify).most_likely_email = some em)
    (hgen : isGenericLocalPart cfg em = true) :
    cfg.confidenceThreshold
        ≤ (findEmailCore cfg firstName lastName domain patterns scraped dns
          verify).confidence_score
      ∧ cfg.genericConfidenceThreshold
        ≤ (findEmailCore cfg firstName lastName domain patterns scraped dns
          verify).confidence_score :=
  findEmailCore_generic_selection cfg firstName lastName domain patterns scraped
    dns verify em hsel hgen

/-- Witness for C1: a generic address selected with confidence 9 clears both
thresholds. -/
theorem claim_C1_witness :
    witnessConfig.confidenceThreshold
        ≤ (findEmailCore witnessConfig "info" "zed" "x.co" ["info@x.co"]
          ["info@x.co"] (.ok "mx.x.co") (fun _ => (some true, "ok"))).confidence_score
      ∧ witnessConfig.genericConfidenceThreshold
        ≤ (findEmailCore witnessConfig "info" "zed" "x.co" ["info@x.co"]
          ["info@x.co"] (.ok "mx.x.co") (fun _ => (some true, "ok"))).confidence_score :=
  claim_C1 witnessConfig "info" "zed" "x.co" ["info@x.co"] ["info@x.co"]
    (.ok "mx.x.co") (fun _ => (some true, "ok")) "info@x.co" (by decide) (by decide)

/-- C5: `found_emails` is the stable sort of the loop's output under the
comparator (confidence descending, then `is_generic` ascending, then source
descending): it is a permutation of the loop's output, pairwise ordered by
the comparator, and every comparator-equal pair keeps its evaluation order. -/
theorem claim_C5 (cfg : SleuthConfig) (firstName lastName domain : String)
    (patterns scraped : List String) (dns : Except String String)
    (verify : String → Option Bool × String) :
    (findEmailCore cfg firstName lastName domain patterns scraped dns
        verify).found_emails
      = sortFound (engineAssess cfg firstName lastName domain patterns scraped dns
        verify).foundEmails
    ∧ ((findEmailCore cfg firstName lastName domain patterns scraped dns
        verify).found_emails).Perm
      (engineAssess cfg firstName lastName domain patterns scraped dns
        verify).foundEmails
    ∧ List.Pairwise foundOrder
      (findEmailCore cfg firstName lastName domain patterns scraped dns
        verify).found_emails
    ∧ (∀ a b : FoundEmailData, cmpFound a b = .eq →
        List.Sublist [a, b]
          (engineAssess cfg firstName lastName domain patterns scraped dns
            verify).foundEmails →
        List.Sublist [a, b]
          (findEmailCore cfg firstName lastName domain patterns scraped dns
            verify).found_emails) := by
  refine ⟨rfl, List.perm_insertionSort foundOrder _,
    List.sorted_insertionSort foundOrder _, ?_⟩
  intro a b heq hsub
  have hab : foundOrder a b := by
    show leFound a b = true
    simp only [leFound, heq]
    rfl
  exact List.pair_sublist_insertionSort hab hsub

/-- Witness for C5 at a concrete invocation. -/
theorem claim_C5_witness :
    (findEmailCore witnessConfig "jane" "doe" "x.co" ["jane.doe@x.co"] []
        (.ok "mx.x.co") (fun _ => (none, "inconclusive"))).found_emails
      = sortFound (engineAssess witnessConfig "jane" "doe" "x.co" ["jane.doe@x.co"]
        [] (.ok "mx.x.co") (fun _ => (none, "inconclusive"))).foundEmails :=
  (claim_C5 witnessConfig "jane" "doe" "x.co" ["jane.doe@x.co"] [] (.ok "mx.x.co")
    (fun _ => (none, "inconclusive"))).1

/-- C6: when mail-server resolution fails, the engine still returns a result:
the DNS failure is logged under the domain key, every retained candidate is
unverified, and `smtp_verification` is never recorded. -/
theorem claim_C6 (cfg : SleuthConfig) (firstName lastName domain : String)
    (patterns scraped : List String) (e : String)
    (verify : String → Option Bool × String)
    (hdom : emailRegexIsMatch domain = false) :
    logLookup (findEmailCore cfg firstName lastName domain patterns scraped
        (.error e) verify).verification_log domain
      = some ("DNS resolution failed: " ++ e)
    ∧ (∀ fe ∈ (findEmailCore cfg firstName lastName domain patterns scraped
        (.error e) verify).found_emails, fe.verification_status = none)
    ∧ "smtp_verification" ∉ (findEmailCore cfg firstName lastName domain patterns
        scraped (.error e) verify).methods_used :=
  findEmailCore_dns_failure cfg firstName lastName domain patterns scraped e
    verify hdom

/-- Witness for C6: concrete invocation with a failed DNS resolution. -/
theorem claim_C6_witness :
    logLookup (findEmailCore witnessConfig "jane" "doe" "x.co" ["jane.doe@x.co"]
        [] (.error "NXDOMAIN") (fun _ => (none, ""))).verification_log "x.co"
      = some ("DNS resolution failed: " ++ "NXDOMAIN")
    ∧ "smtp_verification" ∉ (findEmailCore witnessConfig "jane" "doe" "x.co"
        ["jane.doe@x.co"] [] (.error "NXDOMAIN") (fun _ => (none, ""))).methods_used :=
  ⟨(claim_C6 witnessConfig "jane" "doe" "x.co" ["jane.doe@x.co"] [] "NXDOMAIN"
      (fun _ => (none, "")) (by decide)).1,
    (claim_C6 witnessConfig "jane" "doe" "x.co" ["jane.doe@x.co"] [] "NXDOMAIN"
      (fun _ => (none, "")) (by decide)).2.2⟩

/-- C7 counterexample: two admissible `HashSet` iteration orders (first-seen
order, and its reverse) give different output sequences for the same input,
so two invocations need not return identical sequences. -/
theorem claim_C7_counterexample :
    generate_email_patterns_iter dedupKeepFirst "john" "doe" "example.com"
      ≠ generate_email_patterns_iter (fun l => (dedupKeepFirst l).reverse)
        "john" "doe" "example.com" := by
  decide

/-- C7 (amended): pattern generation is deterministic only up to `HashSet`
iteration order: for a fixed input, any two admissible iteration orders
produce the same multiset of addresses (and agree on panicking); the sequence
order is not guaranteed, and the claim's "position of first generation" has
no counterpart in the set iteration. -/
theorem claim_C7 (iter1 iter2 : List String → List String)
    (h1 : IterOk iter1) (h2 : IterOk iter2) (fn ln d : String) :
    OptionPerm (generate_email_patterns_iter iter1 fn ln d)
      (generate_email_patterns_iter iter2 fn ln d) := by
  unfold generate_email_patterns_iter
  by_cases hc1 : (fn == "" || ln == "" || d == "" || !(d.data.contains '.')) = true
  · rw [if_pos hc1, if_pos hc1]
    exact List.Perm.refl []
  · rw [if_neg hc1, if_neg hc1]
    by_cases hc2 : (sanitize_name_part fn == "" || sanitize_name_part ln == "") = true
    · rw [if_pos hc2, if_pos hc2]
      exact List.Perm.refl []
    · rw [if_neg hc2, if_neg hc2]
      change OptionPerm
        (match patternInsertions (sanitize_name_part fn) (sanitize_name_part ln) d
            ((sanitize_name_part fn).data.headD (Char.ofNat 0))
            ((sanitize_name_part ln).data.headD (Char.ofNat 0)) with
          | none => none
          | some ins => some (emitPatterns iter1 d ins))
        (match patternInsertions (sanitize_name_part fn) (sanitize_name_part ln) d
            ((sanitize_name_part fn).data.headD (Char.ofNat 0))
            ((sanitize_name_part ln).data.headD (Char.ofNat 0)) with
          | none => none
          | some ins => some (emitPatterns iter2 d ins))
      cases patternInsertions (sanitize_name_part fn) (sanitize_name_part ln) d
          ((sanitize_name_part fn).data.headD (Char.ofNat 0))
          ((sanitize_name_part ln).data.headD (Char.ofNat 0)) with
      | none => exact trivial
      | some ins =>
        show (emitPatterns iter1 d ins).Perm (emitPatterns iter2 d ins)
        unfold emitPatterns
        exact (((h1 ins).trans (h2 ins).symm).map _).filter _

/-- Witness for C7: the two concrete iteration orders of the counterexample
produce permutations of each other. -/
theorem claim_C7_witness :
    OptionPerm (generate_email_patterns_iter dedupKeepFirst "john" "doe" "example.com")
      (generate_email_patterns_iter (fun l => (dedupKeepFirst l).reverse)
        "john" "doe" "example.com") :=
  claim_C7 dedupKeepFirst (fun l => (dedupKeepFirst l).reverse)
    (fun _ => List.Perm.refl _) (fun l => List.reverse_perm (dedupKeepFirst l))
    "john" "doe" "example.com"

/-- C10: every merged candidate that passes the email regex and the admission
rule gets exactly one verification-log entry keyed by its email — whether
verified, skipped for low confidence, skipped for DNS failure, or later
dropped for zero confidence. -/
theorem claim_C10 (cfg : SleuthConfig) (firstName lastName domain : String)
    (patterns scraped : List String) (dns : Except String String)
    (verify : String → Option Bool × String) (email : String)
    (hmem : email ∈ mergeCandidates patterns scraped (sToLower firstName)
      (sToLower lastName))
    (hre : emailRegexIsMatch email = true)
    (hadm : admitsCandidate cfg domain scraped email = true) :
    countKey (findEmailCore cfg firstName lastName domain patterns scraped dns
      verify).verification_log email = 1 :=
  findEmailCore_log_unique cfg firstName lastName domain patterns scraped dns
    verify email hmem hre hadm

/-- Witness for C10: a candidate skipped because of DNS failure still gets
exactly one log entry. -/
theorem claim_C10_witness :
    "jane.doe@x.co" ∈ mergeCandidates ["jane.doe@x.co"] [] (sToLower "jane")
        (sToLower "doe")
    ∧ countKey (findEmailCore witnessConfig "jane" "doe" "x.co" ["jane.doe@x.co"]
        [] (.error "NXDOMAIN") (fun _ => (none, ""))).verification_log
        "jane.doe@x.co" = 1 :=
  ⟨by decide,
    claim_C10 witnessConfig "jane" "doe" "x.co" ["jane.doe@x.co"] []
      (.error "NXDOMAIN") (fun _ => (none, "")) "jane.doe@x.co" (by decide)
      (by decide) (by decide)⟩

end EmailSleuth
